import Mathlib

/-!
Shallow embedding of the deep-dna repository's model architecture
(`src/deepdna/nn/models/dnabert.py` and `src/deepdna/nn/models/setbert.py`),
with theorems settling the specification claims about vocabulary and shape
arithmetic, constructor-time error behaviour, chunked inference, permutation
equivariance of the set aggregator, the frozen-encoder training boundary,
and the sorted reconstruction loss.

Machine floats are modelled by exact rationals (ℚ); tensor axes are modelled
by lists.  Pieces of the repository that live outside the provided sources
(the `layers` and `losses` modules, and library semantics of the tensor
framework) are modelled from the specification and marked as such in their
doc comments.
-/

namespace DeepDna

/-! ## DNABERT configuration and shape arithmetic (`dnabert.py`) -/

/-- Constructor configuration of `DnaBertModel` (dnabert.py lines 18-38). -/
structure DnaBertConfig where
  sequence_length : ℕ
  kmer : ℕ
  embed_dim : ℕ
  stack : ℕ
  num_heads : ℕ
  pre_layernorm : Bool := true
  variable_length : Bool := false
  num_bases : ℕ := 4
deriving DecidableEq, Repr

/-- `additional_tokens = 1; additional_tokens += int(self.variable_length)`
(dnabert.py lines 42-43): reserved sentinel slots (mask; pad when
variable-length). -/
def additionalTokens (cfg : DnaBertConfig) : ℕ :=
  1 + (if cfg.variable_length then 1 else 0)

/-- Size of the token embedding table passed to `EmbeddingWithClassToken`
(dnabert.py line 46): `num_bases ** kmer + additional_tokens`. -/
def vocabSize (cfg : DnaBertConfig) : ℕ :=
  cfg.num_bases ^ cfg.kmer + additionalTokens cfg

/-- Accepted input length of the base model (dnabert.py line 44):
`sequence_length - kmer + 1` tokens. -/
def tokenInputLength (cfg : DnaBertConfig) : ℕ :=
  cfg.sequence_length - cfg.kmer + 1

/-- `EmbeddingWithClassToken` (dnabert.py line 45; the layer itself is outside
the provided sources).  Modelled from the spec: embeds each token id and
prepends the learned class token, so position 0 of the output is the class
token and the output length is one more than the input length. -/
def embedWithClassToken {V : Type} (cls : V) (emb : ℕ → V) (toks : List ℕ) : List V :=
  cls :: toks.map emb

/-- `RelativeTransformerBlock` (dnabert.py lines 50-54; the layer itself is
outside the provided sources).  Modelled from the spec: each output position
is produced from its own input embedding in the context of the whole
sequence, so the block preserves sequence length.  `rowF` abstracts the
relative-position attention and feed-forward computation for one position. -/
def relativeTransformerBlock {V : Type} (rowF : V → List V → V) (xs : List V) : List V :=
  xs.map (fun x => rowF x xs)

/-- Forward pass of `DnaBertModel.build_model` (dnabert.py lines 41-55):
embed with class token, then apply the configured stack of transformer
blocks. -/
def dnaBertForward {V : Type} (cls : V) (emb : ℕ → V)
    (rowFs : List (V → List V → V)) (toks : List ℕ) : List V :=
  rowFs.foldl (fun s f => relativeTransformerBlock f s) (embedWithClassToken cls emb toks)

/-! ## DNABERT pretraining constructor (`DnaBertPretrainModel.__init__`) -/

/-- Errors raised during model construction. -/
inductive InitError where
  | assertionFailed : InitError
  | attributeError : String → InitError
  | rankCountMismatch : ℕ → ℕ → InitError
deriving DecidableEq, Repr

/-- The masking layer stored by `DnaBertPretrainModel.__init__`
(dnabert.py lines 88-94). -/
inductive MaskingLayer where
  | contiguousMask : ℚ → MaskingLayer
  | trimAndContiguousMask : ℕ → ℕ → ℚ → MaskingLayer
deriving DecidableEq, Repr

/-- Record of a successfully constructed `DnaBertPretrainModel`. -/
structure DnaBertPretrainRecord where
  base : DnaBertConfig
  minLen : ℕ
  maxLen : ℕ
  masking : MaskingLayer
deriving DecidableEq, Repr

/-- `self.max_len = self.base.sequence_length if max_len is None else max_len`
(dnabert.py line 85). -/
def resolvedMaxLen (base : DnaBertConfig) (max_len : Option ℕ) : ℕ :=
  max_len.getD base.sequence_length

/-- `self.min_len = self.max_len if min_len is None else min_len`
(dnabert.py line 86). -/
def resolvedMinLen (base : DnaBertConfig) (min_len max_len : Option ℕ) : ℕ :=
  min_len.getD (resolvedMaxLen base max_len)

/-- Instance attributes assigned on `self` before the masking branch of
`DnaBertPretrainModel.__init__` runs (dnabert.py lines 84-86): `base`,
`max_len`, `min_len`.  The constructor parameter `mask_ratio` is never
assigned to `self`. -/
def assignedAttrsBeforeMasking : List String :=
  ["base", "max_len", "min_len"]

/-- Python attribute lookup on `self`: reading an attribute that was never
assigned raises `AttributeError` naming the attribute. -/
def readAttr (attrs : List String) (name : String) : Except InitError Unit :=
  if name ∈ attrs then .ok () else .error (.attributeError name)

/-- `DnaBertPretrainModel.__init__` (dnabert.py lines 75-95): resolve
`max_len`/`min_len` defaults, `assert self.min_len <= self.max_len`, then
build the masking layer — the variable-length branch reads `self.mask_ratio`
(line 92), which was never assigned. -/
def dnaBertPretrainInit (base : DnaBertConfig) (mask_ratio : ℚ)
    (min_len max_len : Option ℕ) : Except InitError DnaBertPretrainRecord :=
  let maxL := resolvedMaxLen base max_len
  let minL := resolvedMinLen base min_len max_len
  if minL ≤ maxL then
    if base.variable_length then
      (readAttr assignedAttrsBeforeMasking "mask_ratio").map (fun _ =>
        { base := base, minLen := minL, maxLen := maxL,
          masking := .trimAndContiguousMask (minL - base.kmer + 1)
            (maxL - base.kmer + 1) mask_ratio })
    else
      .ok { base := base, minLen := minL, maxLen := maxL,
            masking := .contiguousMask mask_ratio }
  else
    .error .assertionFailed

/-! ## DNABERT pretraining forward pass (`DnaBertPretrainModel.build_model`) -/

/-- The id shift applied by the pretraining model before masking
(dnabert.py line 102): `x + additional_tokens`. -/
def pretrainShiftedIds (cfg : DnaBertConfig) (toks : List ℕ) : List ℕ :=
  toks.map (· + additionalTokens cfg)

/-- The id shift applied by `DnaBertEncoderModel.build_model`
(dnabert.py line 140): `x + 1`, with no dependence on `variable_length`. -/
def encoderShiftedIds (toks : List ℕ) : List ℕ :=
  toks.map (· + 1)

/-- Token id 0 is the reserved mask/pad sentinel (spec §4.1; the
`ContiguousMask` layer is outside the provided sources).  Modelled from the
spec. -/
def maskSentinel : ℕ := 0

/-- `ContiguousMask` application with a chosen span (the layer itself is
outside the provided sources).  Modelled from the spec: replaces the
contiguous run of `len` positions starting at `start` with the mask
sentinel, leaving all other positions unchanged. -/
def maskFrom (sent : ℕ) : ℕ → ℕ → List ℕ → List ℕ
  | _, _, [] => []
  | s + 1, l, t :: ts => t :: maskFrom sent s l ts
  | 0, l + 1, _ :: ts => sent :: maskFrom sent 0 l ts
  | 0, 0, ts => ts

/-- Number of output units of the reconstruction head
(dnabert.py line 107): `Dense(self.base.num_bases ** self.base.kmer)`. -/
def denseUnits (cfg : DnaBertConfig) : ℕ :=
  cfg.num_bases ^ cfg.kmer

/-- The reconstruction head's logits for one position: a dense projection to
`denseUnits cfg` values (dnabert.py line 107), with `w j` the abstract
affine map computing unit `j`. -/
def denseLogits {V : Type} (cfg : DnaBertConfig) (w : ℕ → V → ℚ) (x : V) : List ℚ :=
  (List.range (denseUnits cfg)).map (fun j => w j x)

/-- Cross-entropy pretraining loss restricted to the masked span (dnabert.py
lines 106 and 110-113; the `InvertMask` layer and the keras loss-masking
semantics are outside the provided sources).  Modelled from the spec: the
loss sums the per-position cross-entropy `ce` only over the `len` masked
positions starting at `start`. -/
def maskedSpanLoss (ce : ℕ → List ℚ → ℚ) (labels : List ℕ)
    (logits : List (List ℚ)) (start len : ℕ) : ℚ :=
  ((List.range len).map (fun k =>
    ce (labels.getD (start + k) 0) (logits.getD (start + k) []))).sum

/-- Full pretraining input pipeline (dnabert.py lines 97-108): shift raw ids
up by `additional_tokens`, then mask a contiguous span with the sentinel. -/
def pretrainMaskedInput (cfg : DnaBertConfig) (start len : ℕ) (toks : List ℕ) : List ℕ :=
  maskFrom maskSentinel start len (pretrainShiftedIds cfg toks)

/-! ## Chunked inference (`DnaBertEncoderModel.encode`)

`encode` (dnabert.py lines 145-150) flattens all leading batch dimensions,
runs `tfu.subbatching.subbatch_predict` with the chosen chunk size, and
restores the original leading shape.  `subbatch_predict` is an external
library routine; modelled from the spec (§4.3): partition the flattened
batch into slices of at most `chunkSize`, forward-pass each slice
independently with no cross-slice state, and concatenate the results.  The
per-sequence forward pass of the model is abstracted as `f`, since the
network computes each row of a batch independently of the other rows. -/

/-- Partition a list of rows into consecutive chunks.  For `c ≥ 1` every
chunk has at most `c` rows; each chunk is nonempty by construction. -/
def chunkBatch {α : Type} (c : ℕ) : List α → List (List α)
  | [] => []
  | x :: xs => (x :: xs.take (c - 1)) :: chunkBatch c (xs.drop (c - 1))
termination_by l => l.length
decreasing_by
  simp only [List.length_drop, List.length_cons]
  omega

/-- `tfu.subbatching.subbatch_predict` (external; modelled from the spec):
map the per-row model over each chunk independently and concatenate. -/
def subbatchPredict {α β : Type} (f : α → β) (rows : List α) (c : ℕ) : List β :=
  ((chunkBatch c rows).map (fun chunk => chunk.map f)).flatten

/-- Split a flat result list back into the leading shape of the original
nested batch (the `tf.reshape` on dnabert.py line 150 restoring
`original_shape[:-1]`). -/
def splitLike {α β : Type} : List (List α) → List β → List (List β)
  | [], _ => []
  | g :: gs, ys => ys.take g.length :: splitLike gs (ys.drop g.length)

/-- `DnaBertEncoderModel.encode` (dnabert.py lines 145-150) over a batch
with one leading batch dimension beyond the row axis: flatten the leading
dimensions (`tf.reshape` to `(-1, original_shape[-1])`), subbatch-predict
with chunk size `c`, and restore the original leading shape. -/
def encode {α β : Type} (f : α → β) (batch : List (List α)) (c : ℕ) : List (List β) :=
  splitLike batch (subbatchPredict f batch.flatten c)

/-! ## SetBERT: class-token injection and attention blocks (`setbert.py`)

`SetBertModel.build_model` (setbert.py lines 144-165) injects a learned
class token at position 0 and applies `stack` blocks, each `st.SAB` (full
self-attention) or `st.ISAB` (induced self-attention).  `InjectClassToken`
and the `settransformer` blocks are outside the provided sources; modelled
from the spec (§4.4): each output position of an attention block is computed
from its own input embedding and an aggregate, over all positions of its
attention target, of pairwise contributions.  `score x y` is the
contribution of position `y` attended from query `x` (covering attention
weights times values, accumulated in a commutative monoid `M`, e.g. softmax
numerator/denominator pairs), and `out x m` finishes the position (covering
normalization, projections, residuals and the feed-forward sublayer). -/

/-- Parameters of one attention computation. -/
structure AttnParams (V M : Type) where
  score : V → V → M
  out : V → M → V

/-- One output position of an attention over target list `X` for query `x`. -/
def aggAttn {V M : Type} [AddCommMonoid M] (P : AttnParams V M) (X : List V) (x : V) : V :=
  P.out x ((X.map (P.score x)).sum)

/-- One block of the SetBERT stack: full self-attention (`st.SAB`) or
induced self-attention (`st.ISAB`) with its learned inducing vectors. -/
inductive SetBlock (V M : Type) where
  | sab : AttnParams V M → SetBlock V M
  | isab : AttnParams V M → AttnParams V M → List V → SetBlock V M

/-- Apply one block to the state `(classToken, members)`.  Every position
(class token included) attends over the full list `classToken :: members`;
an ISAB first computes the induced summary `H` from the inducing vectors
attending over the full list, then every position attends over `H`. -/
def applyBlock {V M : Type} [AddCommMonoid M] :
    SetBlock V M → V × List V → V × List V
  | .sab P, (c, ms) =>
      (aggAttn P (c :: ms) c, ms.map (aggAttn P (c :: ms)))
  | .isab P Q induce, (c, ms) =>
      let H := induce.map (aggAttn P (c :: ms))
      (aggAttn Q H c, ms.map (aggAttn Q H))

/-- `SetBertModel.build_model` forward pass (setbert.py lines 144-165):
inject the class token at position 0, then fold the block stack.  The
output is the pair (class-token output, per-member outputs at positions
`1..max_set_len`). -/
def setBertForward {V M : Type} [AddCommMonoid M] (clsInit : V)
    (blocks : List (SetBlock V M)) (ms : List V) : V × List V :=
  blocks.foldl (fun s b => applyBlock b s) (clsInit, ms)

/-- Reorder a list by a list of indices (`p.map (ms.get ·)` with a default
for out-of-range indices); with `p` a permutation of `range ms.length` this
applies the permutation `p` to `ms`. -/
def permuteL {V : Type} (d : V) (p : List ℕ) (ms : List V) : List V :=
  p.map (fun i => ms.getD i d)

/-! ## Frozen encoder boundary (`setbert.py` lines 142, 204-237)

`SetBertModel.__init__` sets `self.dnabert_encoder.trainable = False`
(line 142), and `SetBertPretrainModel.call` computes
`embeddings = tf.stop_gradient(self.base.dnabert_encoder.encode(inputs))`
(line 228).  The tensor framework's autodifferentiation and
trainable-variable collection are external; modelled from the spec (§5, §9):
`stop_gradient` is the identity on values and blocks all gradient flow, and
a training step updates exactly the variables of sub-models marked
trainable. -/

/-- Scalar expression language over variables indexed by `ι`, with the
framework's `stop_gradient` operation. -/
inductive Expr (ι : Type) where
  | const : ℚ → Expr ι
  | var : ι → Expr ι
  | add : Expr ι → Expr ι → Expr ι
  | mul : Expr ι → Expr ι → Expr ι
  | stopGradient : Expr ι → Expr ι

/-- Forward evaluation: `stopGradient` is the identity on values. -/
def Expr.eval {ι : Type} (env : ι → ℚ) : Expr ι → ℚ
  | .const q => q
  | .var v => env v
  | .add a b => a.eval env + b.eval env
  | .mul a b => a.eval env * b.eval env
  | .stopGradient e => e.eval env

/-- Symbolic derivative with respect to variable `v`: `stopGradient`
contributes zero gradient (modelled from the spec's hard-detach semantics). -/
def Expr.grad {ι : Type} [DecidableEq ι] (v : ι) : Expr ι → Expr ι
  | .const _ => .const 0
  | .var w => if v = w then .const 1 else .const 0
  | .add a b => .add (a.grad v) (b.grad v)
  | .mul a b => .add (.mul (a.grad v) b) (.mul a (b.grad v))
  | .stopGradient _ => .const 0

/-- The downstream network of `SetBertPretrainModel` (masking, the SetBERT
stack, and the loss), built from the fed-in embeddings and the SetBERT-side
parameters `S` only — the encoder's parameters can enter the loss solely
through the embeddings it produces. -/
inductive Net (S : Type) where
  | inp : Net S
  | param : S → Net S
  | const : ℚ → Net S
  | add : Net S → Net S → Net S
  | mul : Net S → Net S → Net S

/-- Plug an expression in for the embedding input of a downstream net.
Variables are split as `E ⊕ S`: encoder-side (`E`) and SetBERT-side (`S`). -/
def Net.toExpr {E S : Type} (fed : Expr (E ⊕ S)) : Net S → Expr (E ⊕ S)
  | .inp => fed
  | .param s => .var (Sum.inr s)
  | .const q => .const q
  | .add a b => .add (a.toExpr fed) (b.toExpr fed)
  | .mul a b => .mul (a.toExpr fed) (b.toExpr fed)

/-- Loss expression of `SetBertPretrainModel.call` followed by the compiled
loss (setbert.py lines 204-217 and 227-229): the downstream net consumes
`tf.stop_gradient` of the encoder's output expression. -/
def setBertPretrainLossExpr {E S : Type} (encodeExpr : Expr (E ⊕ S))
    (net : Net S) : Expr (E ⊕ S) :=
  net.toExpr (.stopGradient encodeExpr)

/-- Variables of a `SetBertPretrainModel`, split into those owned by the
wrapped `DnaBertEncoderModel` (and its base) and those of the SetBERT
stack. -/
structure SetBertPretrainVars where
  encoderVars : List ℚ
  setVars : List ℚ
deriving DecidableEq, Repr

/-- `self.dnabert_encoder.trainable = False`, set unconditionally at the end
of `SetBertModel.__init__` (setbert.py line 142). -/
def dnabertEncoderTrainable : Bool := false

/-- `self.trainable_variables` (modelled from the spec's non-trainable
discipline): the variables of sub-models marked trainable, here the encoder
variables only when its `trainable` flag is set, followed by the SetBERT
variables. -/
def trainableVariables (p : SetBertPretrainVars) : List ℚ :=
  (if dnabertEncoderTrainable then p.encoderVars else []) ++ p.setVars

/-- One `train_step` parameter update
(`self.optimizer.apply_gradients(zip(gradients, self.trainable_variables))`,
setbert.py lines 214-215; optimizer semantics modelled from the spec):
`u var grad` is the optimizer's per-variable update rule, applied to exactly
the trainable variables in order; non-trainable variables are untouched. -/
def applyTrainStep (u : ℚ → ℚ → ℚ) (grads : List ℚ)
    (p : SetBertPretrainVars) : SetBertPretrainVars :=
  let encTrain := if dnabertEncoderTrainable then p.encoderVars.length else 0
  { encoderVars :=
      List.zipWith u (p.encoderVars.take encTrain) (grads.take encTrain)
        ++ p.encoderVars.drop encTrain,
    setVars := List.zipWith u p.setVars (grads.drop encTrain) }

/-! ## Sorted reconstruction loss (`SetBertPretrainModel.compile`) -/

/-- Mean-squared error over paired positions. -/
def mseLoss (xs ys : List ℚ) : ℚ :=
  (((xs.zip ys).map (fun p => (p.1 - p.2) ^ 2)).sum) / xs.length

/-- `SortedLoss(tf.keras.losses.mean_squared_error)` (setbert.py line 200;
the `losses` module is outside the provided sources).  Modelled from the
spec (§4.5): predictions and targets are each independently sorted by a
deterministic key — the element's value, ascending — before computing
mean-squared-error over the first `num_masked` positions. -/
def sortedLoss (numMasked : ℕ) (preds targets : List ℚ) : ℚ :=
  mseLoss ((List.insertionSort (· ≤ ·) preds).take numMasked)
    ((List.insertionSort (· ≤ ·) targets).take numMasked)

/-! ## Taxonomy classifier construction (`DnaBertTaxonomyModel.__init__`) -/

/-- A taxonomy hierarchy (from the external `dnadb` package).  Modelled from
the spec (§3): a fixed list of ranks, each with a closed label vocabulary. -/
structure TaxonomyHierarchy where
  ranks : List (List String)
deriving DecidableEq, Repr

/-- Number of ranks of a hierarchy. -/
def TaxonomyHierarchy.rankCount (h : TaxonomyHierarchy) : ℕ :=
  h.ranks.length

/-- A successfully constructed per-rank classification block. -/
structure HierarchyBlockRecord where
  depth : ℕ
  topDown : Bool
  hierarchy : TaxonomyHierarchy
deriving DecidableEq, Repr

/-- Modelled from the spec: the hierarchy-block factories
(`layers.TaxonomyHierarchyBlock.from_hierarchy` and
`layers.TaxonomyBlock.from_hierarchy`, called from dnabert.py lines 172-177;
the `layers` module is outside the provided sources).  Spec §4.6/§7:
construction fails with a precondition-violation error when the supplied
hierarchy's rank count mismatches the classifier's configured depth. -/
def hierarchyBlockInit (depth : ℕ) (topDown : Bool)
    (h : TaxonomyHierarchy) : Except InitError HierarchyBlockRecord :=
  if h.rankCount = depth then
    .ok { depth := depth, topDown := topDown, hierarchy := h }
  else
    .error (.rankCountMismatch depth h.rankCount)

/-- Record of a successfully constructed `DnaBertTaxonomyModel`. -/
structure DnaBertTaxonomyRecord where
  base : DnaBertConfig
  block : HierarchyBlockRecord
deriving DecidableEq, Repr

/-- `DnaBertTaxonomyModel.__init__` (dnabert.py lines 161-178): store the
base and hierarchy, then build the hierarchy block (top-down when
`use_top_down_hierarchy`, else independent per-rank) at the classifier's
configured depth; any block-construction failure propagates. -/
def dnaBertTaxonomyInit (base : DnaBertConfig) (depth : ℕ)
    (h : TaxonomyHierarchy) (useTopDown : Bool) :
    Except InitError DnaBertTaxonomyRecord :=
  (hierarchyBlockInit depth useTopDown h).map (fun blk =>
    { base := base, block := blk })

/-! ## Concrete configurations used as test inputs -/

/-- The spec's concrete scenario configuration: `kmer = 3`, `num_bases = 4`,
`sequence_length = 150`, fixed length. -/
def cfg150 : DnaBertConfig :=
  { sequence_length := 150, kmer := 3, embed_dim := 64, stack := 8, num_heads := 8 }

/-- A variable-length base configuration. -/
def cfgVar : DnaBertConfig :=
  { sequence_length := 150, kmer := 3, embed_dim := 64, stack := 8,
    num_heads := 8, variable_length := true }

/-! ## Helper lemmas -/

theorem relativeTransformerBlock_length {V : Type} (f : V → List V → V)
    (xs : List V) : (relativeTransformerBlock f xs).length = xs.length := by
  simp [relativeTransformerBlock]

theorem dnaBertForward_length {V : Type} (cls : V) (emb : ℕ → V)
    (rowFs : List (V → List V → V)) (toks : List ℕ) :
    (dnaBertForward cls emb rowFs toks).length = 1 + toks.length := by
  have key : ∀ (fs : List (V → List V → V)) (s : List V),
      (fs.foldl (fun s f => relativeTransformerBlock f s) s).length = s.length := by
    intro fs
    induction fs with
    | nil => intro s; rfl
    | cons f fs ih =>
        intro s
        simpa [relativeTransformerBlock_length] using ih (relativeTransformerBlock f s)
  simp [dnaBertForward, key, embedWithClassToken, Nat.add_comm]

theorem maskFrom_getD (sent d : ℕ) :
    ∀ (ts : List ℕ) (s l i : ℕ),
      (maskFrom sent s l ts).getD i d =
        if s ≤ i ∧ i < s + l ∧ i < ts.length then sent else ts.getD i d := by
  intro ts
  induction ts with
  | nil =>
      intro s l i
      simp [maskFrom]
  | cons t ts ih =>
      intro s l i
      match s, l with
      | s + 1, l =>
          match i with
          | 0 => simp [maskFrom]
          | i + 1 =>
              simp only [maskFrom, List.getD_cons_succ, List.length_cons]
              rw [ih s l i]
              exact if_congr (by omega) rfl rfl
      | 0, l + 1 =>
          match i with
          | 0 => simp [maskFrom]
          | i + 1 =>
              simp only [maskFrom, List.getD_cons_succ, List.length_cons]
              rw [ih 0 l i]
              exact if_congr (by omega) rfl rfl
      | 0, 0 =>
          simp [maskFrom]

theorem chunkBatch_flatten {α : Type} (c : ℕ) (rows : List α) :
    (chunkBatch c rows).flatten = rows := by
  have key : ∀ (n : ℕ) (rows : List α), rows.length ≤ n →
      (chunkBatch c rows).flatten = rows := by
    intro n
    induction n with
    | zero =>
        intro rows h
        have : rows = [] := List.length_eq_zero.mp (Nat.le_zero.mp h)
        subst this
        simp [chunkBatch]
    | succ n ih =>
        intro rows h
        match rows with
        | [] => simp [chunkBatch]
        | x :: xs =>
            rw [chunkBatch]
            simp only [List.flatten_cons, List.cons_append]
            rw [ih (xs.drop (c - 1)) (by simp at h ⊢; omega)]
            simp [List.take_append_drop]
  exact key rows.length rows (Nat.le_refl _)

theorem chunkBatch_length_le {α : Type} (c : ℕ) (hc : 1 ≤ c) :
    ∀ (rows : List α), ∀ chunk ∈ chunkBatch c rows, chunk.length ≤ c := by
  have key : ∀ (n : ℕ) (rows : List α), rows.length ≤ n →
      ∀ chunk ∈ chunkBatch c rows, chunk.length ≤ c := by
    intro n
    induction n with
    | zero =>
        intro rows h
        have : rows = [] := List.length_eq_zero.mp (Nat.le_zero.mp h)
        subst this
        simp [chunkBatch]
    | succ n ih =>
        intro rows h chunk hm
        match rows with
        | [] => simp [chunkBatch] at hm
        | x :: xs =>
            rw [chunkBatch] at hm
            rcases List.mem_cons.mp hm with h1 | h2
            · subst h1
              simp only [List.length_cons, List.length_take]
              omega
            · exact ih (xs.drop (c - 1)) (by simp at h ⊢; omega) chunk h2
  intro rows
  exact key rows.length rows (Nat.le_refl _)

theorem subbatchPredict_eq_map {α β : Type} (f : α → β) (rows : List α) (c : ℕ) :
    subbatchPredict f rows c = rows.map f := by
  unfold subbatchPredict
  rw [← List.map_flatten, chunkBatch_flatten]

theorem splitLike_map {α β : Type} (f : α → β) (batch : List (List α)) :
    splitLike batch (batch.flatten.map f) = batch.map (fun row => row.map f) := by
  induction batch with
  | nil => rfl
  | cons g gs ih =>
      simp only [splitLike, List.flatten_cons, List.map_append]
      have h1 : List.take g.length (List.map f g ++ List.map f gs.flatten)
          = List.map f g := by
        have := List.take_left (List.map f g) (List.map f gs.flatten)
        rwa [List.length_map] at this
      have h2 : List.drop g.length (List.map f g ++ List.map f gs.flatten)
          = List.map f gs.flatten := by
        have := List.drop_left (List.map f g) (List.map f gs.flatten)
        rwa [List.length_map] at this
      rw [h1, h2, ih]
      simp

/-! ## Claim theorems -/

/-- C4: for every `DnaBertModel` configuration, the token-vocabulary
(embedding-table) size is `num_bases ^ kmer` plus one reserved token, plus
one more when `variable_length`; the accepted input length is
`sequence_length − kmer + 1` tokens; the output has `1 + (sequence_length −
kmer + 1)` positions per sequence (batch axis preserved) with position 0
the class token; and for `kmer = 3`, `num_bases = 4`, `sequence_length =
150` this gives vocabulary size 65 (66 if variable-length), input length
148, and 149 output positions. -/
theorem dnabert_vocab_and_output_shape {V : Type} (cfg : DnaBertConfig)
    (cls : V) (emb : ℕ → V) (rowFs : List (V → List V → V)) (toks : List ℕ)
    (batch : List (List ℕ)) (hlen : toks.length = tokenInputLength cfg) :
    vocabSize cfg
      = cfg.num_bases ^ cfg.kmer + 1 + (if cfg.variable_length then 1 else 0)
    ∧ tokenInputLength cfg = cfg.sequence_length - cfg.kmer + 1
    ∧ (dnaBertForward cls emb rowFs toks).length
        = 1 + (cfg.sequence_length - cfg.kmer + 1)
    ∧ (embedWithClassToken cls emb toks).head? = some cls
    ∧ (batch.map (dnaBertForward cls emb rowFs)).length = batch.length
    ∧ (cfg.kmer = 3 → cfg.num_bases = 4 → cfg.sequence_length = 150 →
        vocabSize cfg = (if cfg.variable_length then 66 else 65)
        ∧ tokenInputLength cfg = 148
        ∧ (dnaBertForward cls emb rowFs toks).length = 149) := by
  refine ⟨?_, rfl, ?_, rfl, by simp, ?_⟩
  · simp [vocabSize, additionalTokens, Nat.add_assoc]
  · rw [dnaBertForward_length, hlen, tokenInputLength]
  · intro h3 h4 h150
    refine ⟨?_, ?_, ?_⟩
    · simp [vocabSize, additionalTokens, h3, h4]
      cases cfg.variable_length <;> simp
    · simp [tokenInputLength, h3, h150]
    · rw [dnaBertForward_length, hlen]
      simp [tokenInputLength, h3, h150]

/-- Witness for C4 at the spec's concrete scenario configuration. -/
theorem dnabert_vocab_and_output_shape_witness :
    vocabSize cfg150 = cfg150.num_bases ^ cfg150.kmer + 1
      + (if cfg150.variable_length then 1 else 0) ∧
    (dnaBertForward (7 : ℕ) id [] (List.replicate 148 0)).length = 149 := by
  have h := dnabert_vocab_and_output_shape cfg150 (7 : ℕ) id []
    (List.replicate 148 0) [] (by simp [cfg150, tokenInputLength])
  exact ⟨h.1, (h.2.2.2.2.2 rfl rfl rfl).2.2⟩

/-- C7: when the resolved `min_len` exceeds the resolved `max_len` (with
`max_len` defaulting to the base's `sequence_length` and `min_len`
defaulting to `max_len`), `DnaBertPretrainModel` construction fails
immediately with the assertion (precondition-violation) error; when
`min_len ≤ max_len`, construction does not raise on this condition. -/
theorem pretrain_min_max_assertion (base : DnaBertConfig) (mask_ratio : ℚ)
    (min_len max_len : Option ℕ) :
    (resolvedMaxLen base max_len < resolvedMinLen base min_len max_len →
      dnaBertPretrainInit base mask_ratio min_len max_len
        = .error .assertionFailed)
    ∧ (resolvedMinLen base min_len max_len ≤ resolvedMaxLen base max_len →
      dnaBertPretrainInit base mask_ratio min_len max_len
        ≠ .error .assertionFailed) := by
  constructor
  · intro hlt
    unfold dnaBertPretrainInit
    rw [if_neg (by omega)]
  · intro hle
    unfold dnaBertPretrainInit
    rw [if_pos hle]
    cases hv : base.variable_length with
    | true =>
        rw [if_pos rfl]
        intro hcontra
        have : readAttr assignedAttrsBeforeMasking "mask_ratio"
            = .error (.attributeError "mask_ratio") := by rfl
        rw [this] at hcontra
        simp [Except.map] at hcontra
    | false =>
        rw [if_neg (by simp)]
        intro hcontra
        exact Except.noConfusion hcontra

/-- Witness for C7: a concrete failing and a concrete passing
configuration. -/
theorem pretrain_min_max_assertion_witness :
    dnaBertPretrainInit cfg150 (15 / 100) (some 151) none
      = .error .assertionFailed
    ∧ dnaBertPretrainInit cfg150 (15 / 100) none none
      ≠ .error .assertionFailed :=
  ⟨(pretrain_min_max_assertion cfg150 (15 / 100) (some 151) none).1
      (by simp [cfg150, resolvedMaxLen, resolvedMinLen]),
   (pretrain_min_max_assertion cfg150 (15 / 100) none none).2
      (by simp [resolvedMaxLen, resolvedMinLen])⟩

/-- C8: hierarchical-classifier construction (`DnaBertTaxonomyModel`) fails
when the supplied hierarchy's rank count differs from the classifier's
configured depth, and succeeds on this condition when they agree; in
particular a depth-6 top-down classifier rejects any hierarchy with a
different rank count. -/
theorem taxonomy_depth_mismatch_rejected (base : DnaBertConfig) (depth : ℕ)
    (h : TaxonomyHierarchy) (useTopDown : Bool) :
    (h.rankCount ≠ depth →
      dnaBertTaxonomyInit base depth h useTopDown
        = .error (.rankCountMismatch depth h.rankCount))
    ∧ (h.rankCount = depth →
      ∃ r, dnaBertTaxonomyInit base depth h useTopDown = .ok r) := by
  constructor
  · intro hne
    unfold dnaBertTaxonomyInit hierarchyBlockInit
    rw [if_neg hne]
    rfl
  · intro heq
    unfold dnaBertTaxonomyInit hierarchyBlockInit
    rw [if_pos heq]
    exact ⟨_, rfl⟩

/-- Witness for C8: a depth-6 top-down classifier rejects a 3-rank
hierarchy and accepts a 6-rank one. -/
theorem taxonomy_depth_mismatch_rejected_witness :
    dnaBertTaxonomyInit cfg150 6 ⟨[["a"], ["b"], ["c"]]⟩ true
      = .error (.rankCountMismatch 6 3)
    ∧ ∃ r, dnaBertTaxonomyInit cfg150 6
        ⟨[["a"], ["b"], ["c"], ["d"], ["e"], ["f"]]⟩ true = .ok r :=
  ⟨(taxonomy_depth_mismatch_rejected cfg150 6 ⟨[["a"], ["b"], ["c"]]⟩ true).1
      (by decide),
   (taxonomy_depth_mismatch_rejected cfg150 6
      ⟨[["a"], ["b"], ["c"], ["d"], ["e"], ["f"]]⟩ true).2 (by decide)⟩

/-- C9: `DnaBertEncoderModel` shifts raw token ids up by exactly 1
regardless of the base's `variable_length` setting, while the pretraining
path of a variable-length base reserves 2 sentinel slots and shifts by 2,
so on any nonempty input the encoder's shifted ids differ from the
pretrainer's. -/
theorem encoder_shift_mismatch (cfg : DnaBertConfig) (toks : List ℕ)
    (hv : cfg.variable_length = true) :
    encoderShiftedIds toks = toks.map (· + 1)
    ∧ additionalTokens cfg = 2
    ∧ ∀ t ts, encoderShiftedIds (t :: ts) ≠ pretrainShiftedIds cfg (t :: ts) := by
  refine ⟨rfl, by simp [additionalTokens, hv], ?_⟩
  intro t ts hcontra
  have hhead : t + 1 = t + additionalTokens cfg := by
    have := congrArg List.head? hcontra
    simpa [encoderShiftedIds, pretrainShiftedIds] using this
  simp [additionalTokens, hv] at hhead

/-- Witness for C9 at a concrete variable-length configuration. -/
theorem encoder_shift_mismatch_witness :
    additionalTokens cfgVar = 2
    ∧ encoderShiftedIds [0, 5] ≠ pretrainShiftedIds cfgVar [0, 5] :=
  ⟨(encoder_shift_mismatch cfgVar [0, 5] rfl).2.1,
   (encoder_shift_mismatch cfgVar [0, 5] rfl).2.2 0 [5]⟩

/-- C10: for every base with `variable_length = true`, `DnaBertPretrainModel`
construction never succeeds: the variable-length masking branch reads the
never-assigned `self.mask_ratio`, so whenever the min/max assertion passes,
construction raises `AttributeError` on `mask_ratio`. -/
theorem pretrain_variable_length_attribute_error (base : DnaBertConfig)
    (mask_ratio : ℚ) (min_len max_len : Option ℕ)
    (hv : base.variable_length = true) :
    (∀ r, dnaBertPretrainInit base mask_ratio min_len max_len ≠ .ok r)
    ∧ (resolvedMinLen base min_len max_len ≤ resolvedMaxLen base max_len →
      dnaBertPretrainInit base mask_ratio min_len max_len
        = .error (.attributeError "mask_ratio")) := by
  have hattr : readAttr assignedAttrsBeforeMasking "mask_ratio"
      = .error (.attributeError "mask_ratio") := by rfl
  constructor
  · intro r hcontra
    unfold dnaBertPretrainInit at hcontra
    by_cases hle : resolvedMinLen base min_len max_len
        ≤ resolvedMaxLen base max_len
    · rw [if_pos hle, if_pos hv, hattr] at hcontra
      simp [Except.map] at hcontra
    · rw [if_neg hle] at hcontra
      exact Except.noConfusion hcontra
  · intro hle
    unfold dnaBertPretrainInit
    rw [if_pos hle, if_pos hv, hattr]
    rfl

/-- Witness for C10 at a concrete variable-length configuration with the
default (valid) length bounds. -/
theorem pretrain_variable_length_attribute_error_witness :
    dnaBertPretrainInit cfgVar (15 / 100) none none
      = .error (.attributeError "mask_ratio") :=
  (pretrain_variable_length_attribute_error cfgVar (15 / 100) none none
    rfl).2 (by simp [resolvedMaxLen, resolvedMinLen])

/-- C5 counterexample: the reconstruction head does not project to
vocabulary-size logits.  At `kmer = 3`, `num_bases = 4` the dense head has
`4 ^ 3 = 64` output units while the vocabulary (embedding-table) size is
`4 ^ 3 + 1 = 65`. -/
theorem pretrain_logits_not_vocab_size :
    (denseLogits cfg150 (fun _ _ => (0 : ℚ)) (0 : ℚ)).length ≠ vocabSize cfg150 := by
  decide

/-- C5 (amended): the pretraining pipeline shifts raw token ids up by
exactly the count of reserved sentinels (1, or 2 when `variable_length`),
masks exactly the chosen contiguous span with the mask sentinel, projects
each kept position to `num_bases ^ kmer` logits — the raw k-mer vocabulary,
one less than the embedding-table (vocabulary) size (two less when
`variable_length`) — and computes the cross-entropy loss over the masked
positions only, so positions outside the span never contribute. -/
theorem pretrain_pipeline_spec {V : Type} (cfg : DnaBertConfig)
    (start len : ℕ) (toks : List ℕ) (w : ℕ → V → ℚ)
    (ce : ℕ → List ℚ → ℚ) (labels : List ℕ) (logits logits' : List (List ℚ))
    (hagree : ∀ k, k < len →
      logits'.getD (start + k) [] = logits.getD (start + k) []) :
    pretrainShiftedIds cfg toks
      = toks.map (· + (1 + if cfg.variable_length then 1 else 0))
    ∧ (∀ i d, (pretrainMaskedInput cfg start len toks).getD i d
        = if start ≤ i ∧ i < start + len ∧ i < toks.length then maskSentinel
          else (pretrainShiftedIds cfg toks).getD i d)
    ∧ (∀ x, (denseLogits cfg w x).length = cfg.num_bases ^ cfg.kmer)
    ∧ denseUnits cfg + additionalTokens cfg = vocabSize cfg
    ∧ maskedSpanLoss ce labels logits' start len
        = maskedSpanLoss ce labels logits start len := by
  refine ⟨rfl, ?_, ?_, ?_, ?_⟩
  · intro i d
    rw [pretrainMaskedInput, maskFrom_getD]
    exact if_congr (by simp [pretrainShiftedIds]) rfl rfl
  · intro x
    simp [denseLogits, denseUnits]
  · rfl
  · unfold maskedSpanLoss
    congr 1
    apply List.map_congr_left
    intro k hk
    rw [hagree k (List.mem_range.mp hk)]

/-- Witness for C5 (amended) at a concrete configuration and span. -/
theorem pretrain_pipeline_spec_witness :
    pretrainShiftedIds cfg150 [0, 5, 9]
      = [0, 5, 9].map (· + (1 + if cfg150.variable_length then 1 else 0))
    ∧ denseUnits cfg150 + additionalTokens cfg150 = vocabSize cfg150 := by
  have h := pretrain_pipeline_spec (V := ℚ) cfg150 1 1 [0, 5, 9]
    (fun _ _ => 0) (fun _ _ => 0) [] [[1]] [[1]] (fun _ _ => rfl)
  exact ⟨h.1, h.2.2.2.1⟩

/-- C1: `DnaBertEncoderModel.encode` flattens the leading batch dimensions,
partitions into slices of at most `chunkSize` (for positive `chunkSize`),
forward-passes each slice independently, concatenates, and restores the
original leading shape; the result equals the direct per-row forward pass
and is therefore identical for any two chunk sizes. -/
theorem encode_chunk_size_invariant {α β : Type} (f : α → β)
    (batch : List (List α)) (c c' : ℕ) (hc : 1 ≤ c) (_hc' : 1 ≤ c') :
    encode f batch c = encode f batch c'
    ∧ encode f batch c = batch.map (fun row => row.map f)
    ∧ ∀ chunk ∈ chunkBatch c batch.flatten, chunk.length ≤ c := by
  have key : ∀ d : ℕ, encode f batch d = batch.map (fun row => row.map f) := by
    intro d
    unfold encode
    rw [subbatchPredict_eq_map, splitLike_map]
  exact ⟨(key c).trans (key c').symm, key c,
    chunkBatch_length_le c hc batch.flatten⟩

/-- Witness for C1 at a concrete batch and two chunk sizes. -/
theorem encode_chunk_size_invariant_witness :
    encode (fun n => n + 1) [[1, 2], [3, 4, 5]] 2
      = encode (fun n => n + 1) [[1, 2], [3, 4, 5]] 3
    ∧ encode (fun n => n + 1) [[1, 2], [3, 4, 5]] 2 = [[2, 3], [4, 5, 6]] := by
  have h := encode_chunk_size_invariant (fun n => n + 1) [[1, 2], [3, 4, 5]]
    2 3 (by decide) (by decide)
  exact ⟨h.1, h.2.1.trans (by decide)⟩

/-! ### Permutation-equivariance lemmas for the SetBERT stack -/

theorem range_map_getD {V : Type} (d : V) (ms : List V) :
    (List.range ms.length).map (fun i => ms.getD i d) = ms := by
  induction ms with
  | nil => rfl
  | cons x xs ih =>
      rw [List.length_cons, List.range_succ_eq_map]
      simp only [List.map_cons, List.getD_cons_zero, List.map_map]
      have hfun : ((fun i => (x :: xs).getD i d) ∘ Nat.succ)
          = fun i => xs.getD i d := by
        funext i
        simp [List.getD_cons_succ]
      rw [hfun, ih]

theorem permuteL_perm {V : Type} (d : V) (p : List ℕ) (ms : List V)
    (hp : p.Perm (List.range ms.length)) : (permuteL d p ms).Perm ms := by
  have h := hp.map (fun i => ms.getD i d)
  rwa [range_map_getD] at h

theorem getD_map_lt {V : Type} (g : V → V) (ms : List V) (i : ℕ)
    (h : i < ms.length) (d d' : V) :
    (ms.map g).getD i d' = g (ms.getD i d) := by
  induction ms generalizing i with
  | nil => simp at h
  | cons x xs ih =>
      cases i with
      | zero => simp
      | succ i =>
          simp only [List.map_cons, List.getD_cons_succ]
          exact ih i (by simpa using h)

theorem map_permuteL {V : Type} (g : V → V) (d : V) (p : List ℕ)
    (ms : List V) (hidx : ∀ i ∈ p, i < ms.length) :
    (permuteL d p ms).map g = permuteL (g d) p (ms.map g) := by
  unfold permuteL
  rw [List.map_map]
  apply List.map_congr_left
  intro i hi
  exact (getD_map_lt g ms i (hidx i hi) d (g d)).symm

theorem aggAttn_perm {V M : Type} [AddCommMonoid M] (P : AttnParams V M)
    {X Y : List V} (h : X.Perm Y) (x : V) : aggAttn P X x = aggAttn P Y x := by
  unfold aggAttn
  rw [(h.map (P.score x)).sum_eq]

theorem applyBlock_length {V M : Type} [AddCommMonoid M] (b : SetBlock V M)
    (c : V) (ms : List V) : (applyBlock b (c, ms)).2.length = ms.length := by
  cases b <;> simp [applyBlock]

theorem applyBlock_perm {V M : Type} [AddCommMonoid M] (b : SetBlock V M)
    (c d : V) (p : List ℕ) (ms : List V)
    (hp : p.Perm (List.range ms.length)) :
    applyBlock b (c, permuteL d p ms)
      = ((applyBlock b (c, ms)).1,
          permuteL d p (applyBlock b (c, ms)).2) := by
  have hperm : (permuteL d p ms).Perm ms := permuteL_perm d p ms hp
  have hcons : (c :: permuteL d p ms).Perm (c :: ms) := hperm.cons c
  have hidx : ∀ i ∈ p, i < ms.length := by
    intro i hi
    exact List.mem_range.mp (hp.subset hi)
  cases b with
  | sab P =>
      simp only [applyBlock, Prod.mk.injEq]
      refine ⟨aggAttn_perm P hcons c, ?_⟩
      calc (permuteL d p ms).map (aggAttn P (c :: permuteL d p ms))
          = (permuteL d p ms).map (aggAttn P (c :: ms)) :=
            List.map_congr_left (fun x _ => aggAttn_perm P hcons x)
        _ = permuteL (aggAttn P (c :: ms) d) p (ms.map (aggAttn P (c :: ms))) :=
            map_permuteL _ d p ms hidx
        _ = permuteL d p (ms.map (aggAttn P (c :: ms))) := by
            unfold permuteL
            apply List.map_congr_left
            intro i hi
            rw [getD_map_lt (aggAttn P (c :: ms)) ms i (hidx i hi) d,
              getD_map_lt (aggAttn P (c :: ms)) ms i (hidx i hi) d]
  | isab P Q induce =>
      simp only [applyBlock]
      have hH : induce.map (aggAttn P (c :: permuteL d p ms))
          = induce.map (aggAttn P (c :: ms)) :=
        List.map_congr_left (fun x _ => aggAttn_perm P hcons x)
      rw [hH]
      simp only [Prod.mk.injEq, true_and]
      calc (permuteL d p ms).map (aggAttn Q (induce.map (aggAttn P (c :: ms))))
          = permuteL (aggAttn Q (induce.map (aggAttn P (c :: ms))) d) p
              (ms.map (aggAttn Q (induce.map (aggAttn P (c :: ms))))) :=
            map_permuteL _ d p ms hidx
        _ = permuteL d p (ms.map (aggAttn Q (induce.map (aggAttn P (c :: ms))))) := by
            unfold permuteL
            apply List.map_congr_left
            intro i hi
            rw [getD_map_lt _ ms i (hidx i hi) d, getD_map_lt _ ms i (hidx i hi) d]

theorem setBertFoldl_perm {V M : Type} [AddCommMonoid M]
    (blocks : List (SetBlock V M)) (d : V) (p : List ℕ) (n : ℕ)
    (hp : p.Perm (List.range n)) :
    ∀ (c : V) (cur : List V), cur.length = n →
      blocks.foldl (fun s b => applyBlock b s) (c, permuteL d p cur)
        = ((blocks.foldl (fun s b => applyBlock b s) (c, cur)).1,
            permuteL d p (blocks.foldl (fun s b => applyBlock b s) (c, cur)).2) := by
  induction blocks with
  | nil => intro c cur _; rfl
  | cons b bs ih =>
      intro c cur hlen
      have hpc : p.Perm (List.range cur.length) := by rwa [hlen]
      simp only [List.foldl_cons]
      rw [applyBlock_perm b c d p cur hpc]
      exact ih (applyBlock b (c, cur)).1 (applyBlock b (c, cur)).2
        (by rw [applyBlock_length, hlen])

/-- C2: applying the SetBERT stack to a set whose non-class-token members
are permuted yields the same class-token output (position 0) as the
unpermuted set, and per-item outputs equal to the original per-item outputs
permuted by the same permutation. -/
theorem setbert_permutation_equivariant {V M : Type} [AddCommMonoid M]
    (clsInit d : V) (blocks : List (SetBlock V M)) (ms : List V)
    (p : List ℕ) (hp : p.Perm (List.range ms.length)) :
    (setBertForward clsInit blocks (permuteL d p ms)).1
      = (setBertForward clsInit blocks ms).1
    ∧ (setBertForward clsInit blocks (permuteL d p ms)).2
      = permuteL d p (setBertForward clsInit blocks ms).2 := by
  have h := setBertFoldl_perm blocks d p ms.length hp clsInit ms rfl
  constructor
  · unfold setBertForward
    rw [h]
  · unfold setBertForward
    rw [h]

/-- Witness for C2: a concrete SAB stack over ℚ embeddings with a concrete
permutation of three members. -/
theorem setbert_permutation_equivariant_witness :
    (setBertForward (5 : ℚ) [SetBlock.sab ⟨fun x y => x * y, fun x m => x + m⟩]
        (permuteL 0 [2, 0, 1] [1, 2, 3])).1
      = (setBertForward (5 : ℚ) [SetBlock.sab ⟨fun x y => x * y, fun x m => x + m⟩]
          [1, 2, 3]).1
    ∧ (setBertForward (5 : ℚ) [SetBlock.sab ⟨fun x y => x * y, fun x m => x + m⟩]
        (permuteL 0 [2, 0, 1] [1, 2, 3])).2
      = permuteL 0 [2, 0, 1]
          (setBertForward (5 : ℚ) [SetBlock.sab ⟨fun x y => x * y, fun x m => x + m⟩]
            [1, 2, 3]).2 :=
  setbert_permutation_equivariant (5 : ℚ) 0
    [SetBlock.sab ⟨fun x y => x * y, fun x m => x + m⟩] [1, 2, 3]
    [2, 0, 1] (by decide)

/-- C3: the encoder boundary is frozen.  The wrapped `DnaBertEncoderModel`
is marked non-trainable at `SetBertModel` construction, so the trainable
variables of `SetBertPretrainModel` are exactly the SetBERT-side variables
and no training step changes any encoder parameter; moreover the
`tf.stop_gradient` in `SetBertPretrainModel.call` makes the gradient of the
loss with respect to every encoder-side variable exactly zero, for every
downstream network. -/
theorem setbert_frozen_encoder_boundary :
    dnabertEncoderTrainable = false
    ∧ (∀ p : SetBertPretrainVars, trainableVariables p = p.setVars)
    ∧ (∀ (u : ℚ → ℚ → ℚ) (grads : List ℚ) (p : SetBertPretrainVars),
        (applyTrainStep u grads p).encoderVars = p.encoderVars)
    ∧ (∀ (E S : Type) [DecidableEq E] [DecidableEq S] (v : E)
        (encodeExpr : Expr (E ⊕ S)) (net : Net S) (env : E ⊕ S → ℚ),
        ((setBertPretrainLossExpr encodeExpr net).grad (Sum.inl v)).eval env
          = 0) := by
  refine ⟨rfl, fun p => rfl, fun u grads p => by
    simp [applyTrainStep, dnabertEncoderTrainable], ?_⟩
  intro E S _instE _instS v encodeExpr net env
  unfold setBertPretrainLossExpr
  induction net with
  | inp => simp [Net.toExpr, Expr.grad, Expr.eval]
  | param s => simp [Net.toExpr, Expr.grad, Expr.eval]
  | const q => simp [Net.toExpr, Expr.grad, Expr.eval]
  | add a b iha ihb => simp [Net.toExpr, Expr.grad, Expr.eval, iha, ihb]
  | mul a b iha ihb => simp [Net.toExpr, Expr.grad, Expr.eval, iha, ihb]

/-! ### Sorted-loss lemmas -/

theorem mseLoss_self (xs : List ℚ) : mseLoss xs xs = 0 := by
  unfold mseLoss
  have h : ((xs.zip xs).map (fun p => (p.1 - p.2) ^ 2)).sum = 0 := by
    induction xs with
    | nil => rfl
    | cons x xs ih => simpa using ih
  rw [h]
  simp

/-- C6: the sorted-match reconstruction loss — predictions and targets each
independently sorted by a deterministic key before mean-squared error over
the first `num_masked` positions — is exactly zero whenever the unordered
predicted set equals the unordered target set, i.e. for any permutation of
masked-slot assignment. -/
theorem sorted_loss_zero_of_set_equal (numMasked : ℕ)
    (preds targets : List ℚ) (h : preds.Perm targets) :
    sortedLoss numMasked preds targets = 0 := by
  have hsort : List.insertionSort (· ≤ ·) preds
      = List.insertionSort (· ≤ ·) targets :=
    List.eq_of_perm_of_sorted
      ((List.perm_insertionSort _ preds).trans
        (h.trans (List.perm_insertionSort _ targets).symm))
      (List.sorted_insertionSort _ preds)
      (List.sorted_insertionSort _ targets)
  unfold sortedLoss
  rw [hsort]
  exact mseLoss_self _

/-- Witness for C6 at concrete prediction and target sets that agree as
unordered sets but occupy the masked slots in a different order. -/
theorem sorted_loss_zero_of_set_equal_witness :
    ([3, 1, 2] : List ℚ).Perm [2, 3, 1]
    ∧ sortedLoss 3 ([3, 1, 2] : List ℚ) [2, 3, 1] = 0 :=
  ⟨by decide, sorted_loss_zero_of_set_equal 3 [3, 1, 2] [2, 3, 1] (by decide)⟩

end DeepDna
